import Mathlib

/-!
Shallow embedding of the hierarchical node store of the google-drive-backend
repository (folder/file tree with materialized paths, trash cascade,
permission resolution, storage-quota accounting), translated from
src/src/controllers/folderController.js, src/src/controllers/fileController.js,
src/src/models/File.js and src/src/models/User.js (which also contains the
Folder schema).

Modelling conventions:
- MongoDB ObjectIds and user ids are `Nat`; timestamps are `Nat`.
- A database state is a list of folder documents, a list of file documents
  and the per-user `storageUsed` counter (an `Int`, since the code updates it
  with unguarded `$inc`).
- A controller that can answer an error status is an `Except String DB`
  (or carries extra observable effects in the result); every error return in
  the source happens before any persisted write, so an `error` result leaves
  the database unchanged by construction.
- `updateMany`/`deleteMany`/`findOne` are embedded as `List.map` with a
  guard, `List.filter`, and `List.find?` over the document lists.
- The MongoDB query built by interpolating a folder path into a regex
  (`$regex` with pattern `^` + path + `/`) is embedded by `pathRegexMatch`:
  the pattern is parsed into single-character atoms — `.` matching any
  character, every other character matching itself — each optionally
  quantified by a following `+` (one or more, with full backtracking).
  Folder names pass through the validation sanitizer, which admits further
  regex metacharacters (`*`, `?`, `(`, `[`, `^`, `$`, `|`, braces); the
  model treats those as literals, so every theorem about regex behaviour
  either restricts the interpolated path to `regexLiteralChar` characters
  or evaluates concrete patterns built only from literals, `.` and `+`,
  where the model agrees with the real semantics.
-/

/-- Share permission stored in a `sharedWith` entry (`enum: ['read','write']`
in the File and Folder schemas). -/
inductive Perm where
  | read
  | write
deriving DecidableEq, Repr

/-- Permission level answered by `isAccessibleBy` (`'owner'`, `'read'`,
`'write'`, or JS `null`, the latter embedded as `Option.none` one level up). -/
inductive PermLevel where
  | owner
  | read
  | write
deriving DecidableEq, Repr

/-- View of a stored share permission as an answered permission level. -/
def Perm.toLevel : Perm → PermLevel
  | .read => .read
  | .write => .write

/-- Result shape of `isAccessibleBy`: `{ access, permission }`. -/
structure AccessResult where
  access : Bool
  permission : Option PermLevel
deriving DecidableEq, Repr

/-- One entry of `shareSettings.sharedWith`. -/
structure ShareEntry where
  user : Nat
  permission : Perm
  sharedAt : Nat
deriving DecidableEq, Repr

/-- The `shareSettings` subdocument common to File and Folder. -/
structure ShareSettings where
  isPublic : Bool
  sharedWith : List ShareEntry
deriving DecidableEq, Repr

/-- A folder document (folderSchema in src/src/models/User.js; fields not
touched by any verified operation, such as `description`, `isShared` and
`shareToken`, are omitted). -/
structure Folder where
  id : Nat
  name : String
  owner : Nat
  parent : Option Nat
  path : String
  color : String
  isDeleted : Bool
  deletedAt : Option Nat
  shareSettings : ShareSettings
deriving DecidableEq, Repr

/-- A file document (fileSchema in src/src/models/File.js; fields not touched
by any verified operation, such as `originalName`, `mimeType`, `tags`,
`version`, are omitted). -/
structure FileDoc where
  id : Nat
  name : String
  owner : Nat
  folder : Option Nat
  size : Nat
  cloudinaryPublicId : String
  isDeleted : Bool
  deletedAt : Option Nat
  shareSettings : ShareSettings
deriving DecidableEq, Repr

/-- Database state: folder collection, file collection, and each user's
`storageUsed` counter. -/
structure DB where
  folders : List Folder
  files : List FileDoc
  storageUsed : Nat → Int

/-- The empty database with all storage counters at 0. -/
def dbEmpty : DB := ⟨[], [], fun _ => 0⟩

/-- Collapse every run of two or more underscores to a single underscore,
embedding the JS `.replace(/_\x7b2,\x7d/g, '_')` step of `sanitizeFilename`. -/
def collapseUnd : List Char → List Char
  | [] => []
  | [c] => [c]
  | c1 :: c2 :: rest =>
    if c1 == '_' && c2 == '_' then collapseUnd (c2 :: rest)
    else c1 :: collapseUnd (c2 :: rest)

/-- Local `sanitizeFilename` of src/src/controllers/fileController.js lines
40-45, used by the upload path only: replace every character outside
`[a-zA-Z0-9.-]` by `_`, collapse runs of `_`, truncate to 255 characters.
folderController.js instead imports `Validation.sanitizeFilename` below. -/
def sanitizeFilename (s : String) : String :=
  let mapped := s.data.map fun c =>
    if c.isAlphanum || c == '.' || c == '-' then c else '_'
  String.mk ((collapseUnd mapped).take 255)

/-- Characters the validation sanitizer replaces with an underscore:
the JS character class is left angle, right angle, colon, double quote,
slash, backslash, vertical bar, question mark, star. -/
def dangerousChar (c : Char) : Bool :=
  c == '<' || c == '>' || c == ':' || c == '"' || c == '/' || c == '\\' ||
  c == '|' || c == '?' || c == '*'

/-- Replace each non-overlapping occurrence of ".." by a single underscore,
left to right, embedding the JS `.replace(/\.\./g, '_')` step. -/
def collapseDoubleDots : List Char → List Char
  | [] => []
  | [c] => [c]
  | c1 :: c2 :: rest =>
    if c1 == '.' && c2 == '.' then '_' :: collapseDoubleDots rest
    else c1 :: collapseDoubleDots (c2 :: rest)

/-- Strip leading and trailing whitespace, embedding JS `.trim()`. -/
def trimChars (l : List Char) : List Char :=
  ((l.dropWhile Char.isWhitespace).reverse.dropWhile Char.isWhitespace).reverse

/-- The `sanitizeFilename` that folderController.js imports from
`../utils/validation` (the validation segment of src/src/middleware/auth.js,
lines 108-119): fall back to "untitled" on an empty input, replace the
dangerous characters by underscores, replace double dots and a leading dot,
trim, truncate to 255 characters, and fall back to "untitled" when nothing
is left.  Every other character — including regex metacharacters such as
a plus sign — is preserved. -/
def Validation.sanitizeFilename (s : String) : String :=
  if s.data.isEmpty then "untitled"
  else
    let step1 := s.data.map fun c => if dangerousChar c then '_' else c
    let step2 := collapseDoubleDots step1
    let step3 := match step2 with
      | '.' :: rest => '_' :: rest
      | l => l
    let step4 := (trimChars step3).take 255
    if step4.isEmpty then "untitled" else String.mk step4

/-- One single-character regex atom of an interpolated pattern: the wildcard
`.` or a literal character. -/
inductive RAtom where
  | dot
  | lit (c : Char)
deriving DecidableEq, Repr

/-- Whether a regex atom matches one text character. -/
def ratomMatch : RAtom → Char → Bool
  | .dot, _ => true
  | .lit p, c => p == c

/-- Parse an interpolated pattern into a sequence of atoms, each carrying
whether a `+` quantifier follows it (the fragment of JS regex reachable from
this code base's sanitized folder paths that the model implements; other
metacharacters admitted by the sanitizer are parsed as literals, see the
module conventions). -/
def parseRegex : List Char → List (RAtom × Bool)
  | [] => []
  | [c] => [(if c == '.' then RAtom.dot else RAtom.lit c, false)]
  | c :: d :: rest =>
    let a := if c == '.' then RAtom.dot else RAtom.lit c
    if d == '+' then (a, true) :: parseRegex rest
    else (a, false) :: parseRegex (d :: rest)

/-- Anchored-at-start match of a parsed pattern against a text, with full
backtracking for `+` quantifiers: embeds testing the regex `^` + pattern on
the text. -/
def matchAtoms : List Char → List (RAtom × Bool) → Bool
  | _, [] => true
  | [], _ :: _ => false
  | c :: cs, (a, false) :: ps => ratomMatch a c && matchAtoms cs ps
  | c :: cs, (a, true) :: ps =>
    ratomMatch a c && (matchAtoms cs ps || matchAtoms cs ((a, true) :: ps))

/-- The descendant test built with `$regex` throughout folderController.js:
candidate path matched against the interpolated pattern
`^` + base path + `/`. -/
def pathRegexMatch (base cand : String) : Bool :=
  matchAtoms cand.data (parseRegex (base ++ "/").data)

/-- Characters that are plain literals in a JS regex; the remaining ones
(wildcard, quantifiers, groups, classes, anchors, alternation, escapes) keep
their metacharacter meaning when a folder path is interpolated unescaped. -/
def regexLiteralChar (c : Char) : Bool :=
  !(c == '.' || c == '+' || c == '*' || c == '?' || c == '(' || c == ')' ||
    c == '[' || c == ']' || c == '\x7b' || c == '\x7d' || c == '^' ||
    c == '$' || c == '|' || c == '\\')

/-- Literal (metacharacter-free) list prefix test, used to state the
spec-level notion of a path having `F.path + "/"` as a prefix. -/
def litStarts : List Char → List Char → Bool
  | [], _ => true
  | _ :: _, [] => false
  | p :: ps, c :: cs => p == c && litStarts ps cs

/-- Literal path-prefix test: `cand` starts with `base ++ "/"`. -/
def litPathStarts (base cand : String) : Bool :=
  litStarts (base ++ "/").data cand.data

/-- `Folder.findOne({ _id, owner, isDeleted })`: first folder with the given
id, owner and deletion flag. -/
def findFolder (db : DB) (fid uid : Nat) (deleted : Bool) : Option Folder :=
  db.folders.find? fun f => f.id == fid && f.owner == uid && f.isDeleted == deleted

/-- `createFolder` (folderController.js lines 8-80): empty-name check,
live-sibling conflict check, parent existence/ownership check, then a new
folder whose path is assigned by the folderSchema pre-validate hook
(parent path + "/" + name, or "/" + name at root). -/
def createFolder (db : DB) (uid newId : Nat) (name : String)
    (parent : Option Nat) (color : Option String) : Except String DB :=
  -- embeds the JS emptiness test (!name || name.trim() === ''):
  if name.data.all Char.isWhitespace then .error "Folder name is required"
  else
    let sname := Validation.sanitizeFilename name
    if db.folders.any fun f =>
        f.name == sname && f.owner == uid && f.parent == parent && !f.isDeleted
    then .error "Folder with this name already exists in this location"
    else
      match parent with
      | some p =>
        match findFolder db p uid false with
        | none => .error "Parent folder not found or access denied"
        | some _ =>
          -- pre('validate') recomputes the path with a plain findById
          match db.folders.find? (fun f => f.id == p) with
          | none => .error "Folder validation failed: path is required"
          | some pf =>
            .ok { db with folders := db.folders ++
              [{ id := newId, name := sname, owner := uid, parent := some p,
                 path := pf.path ++ "/" ++ sname,
                 color := color.getD "#1976d2", isDeleted := false,
                 deletedAt := none, shareSettings := ⟨false, []⟩ }] }
      | none =>
        .ok { db with folders := db.folders ++
          [{ id := newId, name := sname, owner := uid, parent := none,
             path := "/" ++ sname, color := color.getD "#1976d2",
             isDeleted := false, deletedAt := none,
             shareSettings := ⟨false, []⟩ }] }

/-- `getDescendants` (folderController.js lines 372-390): ids of the user's
folders whose path matches the interpolated regex `^` + folder path + `/`. -/
def getDescendants (db : DB) (folderId uid : Nat) : List Nat :=
  match db.folders.find? (fun f => f.id == folderId && f.owner == uid) with
  | none => []
  | some folder =>
    (db.folders.filter fun f =>
      pathRegexMatch folder.path f.path && f.owner == uid).map Folder.id

/-- Request body of `updateFolder`: JS distinguishes an absent field from an
explicit `null` parent, hence `Option (Option Nat)` for `parent`. -/
structure UpdateReq where
  name : Option String
  parent : Option (Option Nat)
  color : Option String
deriving Repr

/-- `updateFolder` (folderController.js lines 272-369): rename with sibling
conflict check, optional reparenting with cycle check via `getDescendants`,
color update, then save.  The folderSchema pre-validate hook recomputes the
path only when the `parent` field was modified (assigned a different value);
otherwise the stored path is left as it was, and descendants are never
recomputed. -/
def updateFolder (db : DB) (uid fid : Nat) (req : UpdateReq) : Except String DB :=
  match findFolder db fid uid false with
  | none => .error "Folder not found or access denied"
  | some folder =>
    let doRename := match req.name with
      | some n => !(n == "") && !(n == folder.name)
      | none => false
    let newName := if doRename then
        Validation.sanitizeFilename (req.name.getD folder.name)
      else folder.name
    let conflictParent : Option Nat := req.parent.getD folder.parent
    let hasConflict := doRename && db.folders.any fun f =>
      f.name == newName && f.owner == uid && f.parent == conflictParent &&
      !f.isDeleted && !(f.id == folder.id)
    if hasConflict then .error "Folder with this name already exists in this location"
    else
      let parentStep : Except String (Option Nat) :=
        match req.parent with
        | none => .ok folder.parent
        | some none => .ok none
        | some (some p) =>
          match findFolder db p uid false with
          | none => .error "Parent folder not found or access denied"
          | some _ =>
            let descendants := getDescendants db folder.id uid
            if descendants.contains p || p == folder.id then
              .error "Cannot move folder into itself or its subdirectories"
            else .ok (some p)
      match parentStep with
      | .error e => .error e
      | .ok newParent =>
        let newColor := req.color.getD folder.color
        let parentModified := !(newParent == folder.parent)
        let newPath :=
          if parentModified then
            match newParent with
            | some p =>
              match db.folders.find? (fun f => f.id == p) with
              | some pf => pf.path ++ "/" ++ newName
              | none => folder.path
            | none => "/" ++ newName
          else folder.path
        .ok { db with folders := db.folders.map fun g =>
          if g.id == folder.id then
            { g with name := newName, parent := newParent,
                     path := newPath, color := newColor }
          else g }

/-- The database state after an `updateFolder` request: the new state on
success, the unchanged state when the controller answered an error. -/
def applyUpdateFolder (db : DB) (uid fid : Nat) (req : UpdateReq) : DB :=
  match updateFolder db uid fid req with
  | .ok db' => db'
  | .error _ => db

/-- `deleteFolder` (soft delete, folderController.js lines 393-453): find the
live folder, enumerate same-owner folders matching the interpolated path
regex, mark those folders and the owner's files inside them deleted.  The two
`new Date()` calls of the source are embedded as the single instant `now`. -/
def deleteFolder (db : DB) (uid fid : Nat) (now : Nat) : Except String DB :=
  match findFolder db fid uid false with
  | none => .error "Folder not found or access denied"
  | some folder =>
    let descendants := db.folders.filter fun f =>
      pathRegexMatch folder.path f.path && f.owner == uid
    let allFolderIds := folder.id :: descendants.map Folder.id
    .ok { db with
      folders := db.folders.map fun g =>
        if allFolderIds.contains g.id && g.owner == uid then
          { g with isDeleted := true, deletedAt := some now }
        else g,
      files := db.files.map fun h =>
        if (h.folder.any fun x => allFolderIds.contains x) && h.owner == uid then
          { h with isDeleted := true, deletedAt := some now }
        else h }

/-- `restoreFolder` (folderController.js lines 456-515): find the trashed
folder, enumerate the owner's deleted folders matching the interpolated path
regex, clear the deletion mark on those folders and on the owner's files
inside them. -/
def restoreFolder (db : DB) (uid fid : Nat) : Except String DB :=
  match findFolder db fid uid true with
  | none => .error "Folder not found in trash"
  | some folder =>
    let descendants := db.folders.filter fun f =>
      pathRegexMatch folder.path f.path && f.owner == uid && f.isDeleted
    let allFolderIds := folder.id :: descendants.map Folder.id
    .ok { db with
      folders := db.folders.map fun g =>
        if allFolderIds.contains g.id && g.owner == uid then
          { g with isDeleted := false, deletedAt := none }
        else g,
      files := db.files.map fun h =>
        if (h.folder.any fun x => allFolderIds.contains x) && h.owner == uid then
          { h with isDeleted := false, deletedAt := none }
        else h }

/-- `permanentlyDeleteFolder` (folderController.js lines 564-612): requires
the folder to be in trash, enumerates the regex descendant set, then runs
`File.deleteMany` and `Folder.deleteMany`.  The second component of the
result is the list of Cloudinary public ids for which a blob delete was
issued: `deleteMany` is a query operation and does not run the
`fileSchema.pre('remove')` document middleware (src/src/models/File.js lines
195-204), so no `deleteFromCloudinary` call is made and the list is empty.
No statement in this controller touches `storageUsed`. -/
def permanentlyDeleteFolder (db : DB) (uid fid : Nat) :
    Except String (DB × List String) :=
  match findFolder db fid uid true with
  | none => .error "Folder not found in trash"
  | some folder =>
    let descendants := db.folders.filter fun f =>
      pathRegexMatch folder.path f.path && f.owner == uid
    let allFolderIds := folder.id :: descendants.map Folder.id
    .ok ({ db with
      files := db.files.filter fun h =>
        !((h.folder.any fun x => allFolderIds.contains x) && h.owner == uid),
      folders := db.folders.filter fun g =>
        !(allFolderIds.contains g.id && g.owner == uid) }, [])

/-- `uploadFile` (fileController.js lines 48-140): after the external blob
upload, persist a file document (the requested folder id is stored without
any existence, ownership or deletion check) and `$inc` the owner's
`storageUsed` by the file size. -/
def uploadFile (db : DB) (uid newId : Nat) (name : String) (size : Nat)
    (folderId : Option Nat) (publicId : String) : DB :=
  { db with
    files := db.files ++
      [{ id := newId, name := sanitizeFilename name, owner := uid,
         folder := folderId, size := size, cloudinaryPublicId := publicId,
         isDeleted := false, deletedAt := none, shareSettings := ⟨false, []⟩ }],
    storageUsed := fun u =>
      if u == uid then db.storageUsed u + (size : Int) else db.storageUsed u }

/-- `deleteFile` (soft delete, fileController.js lines 388-418): find the
owner's live file and run the model's `softDelete` (sets `isDeleted`,
`deletedAt`); `storageUsed` is intentionally left unchanged. -/
def deleteFile (db : DB) (uid fileId : Nat) (now : Nat) : Except String DB :=
  match db.files.find? (fun h => h.id == fileId && h.owner == uid && !h.isDeleted) with
  | none => .error "File not found"
  | some _ =>
    .ok { db with files := db.files.map fun h =>
      if h.id == fileId && h.owner == uid && !h.isDeleted then
        { h with isDeleted := true, deletedAt := some now }
      else h }

/-- `restoreFile` (fileController.js lines 252-290): find the owner's trashed
file and run the model's `restore` (clears `isDeleted`, `deletedAt`); the
state of the containing folder is not consulted. -/
def restoreFile (db : DB) (uid fileId : Nat) : Except String DB :=
  match db.files.find? (fun h => h.id == fileId && h.owner == uid && h.isDeleted) with
  | none => .error "File not found in trash"
  | some _ =>
    .ok { db with files := db.files.map fun h =>
      if h.id == fileId && h.owner == uid && h.isDeleted then
        { h with isDeleted := false, deletedAt := none }
      else h }

/-- `permanentlyDeleteFile` (fileController.js lines 347-384): requires the
owner's file to be in trash, removes it with `File.deleteOne`, and updates
the owner's counter with `$inc: \x7b storageUsed: -file.size \x7d` — a plain
signed increment with no lower bound. -/
def permanentlyDeleteFile (db : DB) (uid fileId : Nat) : Except String DB :=
  match db.files.find? (fun h => h.id == fileId && h.owner == uid && h.isDeleted) with
  | none => .error "File not found in trash"
  | some file =>
    .ok { db with
      files := db.files.eraseP fun h => h.id == fileId && h.owner == uid,
      storageUsed := fun u =>
        if u == uid then db.storageUsed u - (file.size : Int)
        else db.storageUsed u }

/-- `User.recalculateStorageUsage` (src/src/models/User.js lines 89-110):
aggregate the sizes of the user's non-deleted files and overwrite the stored
`storageUsed` with the total. -/
def recalculateStorageUsage (db : DB) (uid : Nat) : DB :=
  let total : Int :=
    ((db.files.filter fun h => h.owner == uid && !h.isDeleted).map
      fun h => (h.size : Int)).sum
  { db with storageUsed := fun u =>
      if u == uid then total else db.storageUsed u }

/-- `fileSchema.methods.isAccessibleBy` (src/src/models/File.js lines
140-163): owner, then first matching `sharedWith` entry, then public read,
else no access. -/
def FileDoc.isAccessibleBy (f : FileDoc) (userId : Nat) : AccessResult :=
  if f.owner == userId then ⟨true, some .owner⟩
  else
    match f.shareSettings.sharedWith.find? (fun e => e.user == userId) with
    | some e => ⟨true, some e.permission.toLevel⟩
    | none =>
      if f.shareSettings.isPublic then ⟨true, some .read⟩
      else ⟨false, none⟩

/-- `folderSchema.methods.isAccessibleBy` (src/src/models/User.js lines
227-250): identical rule on folder documents. -/
def Folder.isAccessibleBy (f : Folder) (userId : Nat) : AccessResult :=
  if f.owner == userId then ⟨true, some .owner⟩
  else
    match f.shareSettings.sharedWith.find? (fun e => e.user == userId) with
    | some e => ⟨true, some e.permission.toLevel⟩
    | none =>
      if f.shareSettings.isPublic then ⟨true, some .read⟩
      else ⟨false, none⟩

/-- The `sharedWith` update block shared verbatim by `shareFolderWithUser`
(folderController.js lines 666-681) and `shareFile` (fileController.js lines
521-536): if a `findIndex` on the user succeeds, overwrite that entry's
permission and `sharedAt` in place; otherwise push a new entry. -/
def applyShare : List ShareEntry → Nat → Perm → Nat → List ShareEntry
  | [], u, p, t => [⟨u, p, t⟩]
  | e :: es, u, p, t =>
    if e.user == u then { e with permission := p, sharedAt := t } :: es
    else e :: applyShare es u p t

/-- Number of `sharedWith` entries carried by user `u`. -/
def countUser (u : Nat) : List ShareEntry → Nat
  | [] => 0
  | e :: es => (if e.user == u then 1 else 0) + countUser u es

/-- A live file whose containing folder is deleted: the orphan state the
cascade invariant forbids. -/
def fileOrphanExists (db : DB) : Bool :=
  db.files.any fun h =>
    !h.isDeleted && h.folder.any fun x =>
      db.folders.any fun g => g.id == x && g.isDeleted

/-- The state produced by a controller result: the new database on success,
the unchanged one on an error response. -/
def runDB (r : Except String DB) (db : DB) : DB :=
  match r with
  | .ok db' => db'
  | .error _ => db

/-- Parsing a pattern of plain literal characters yields unquantified literal
atoms only. -/
theorem parseRegex_lit : ∀ ps : List Char,
    (∀ c ∈ ps, regexLiteralChar c = true) →
    parseRegex ps = ps.map fun c => (RAtom.lit c, false) := by
  intro ps
  induction ps with
  | nil => intro _; rfl
  | cons c rest ih =>
    intro h
    have hc : regexLiteralChar c = true := h c (List.mem_cons_self c rest)
    have hcdot : (c == '.') = false := by
      cases he : c == '.' with
      | true =>
        rw [regexLiteralChar, eq_of_beq he] at hc
        simp at hc
      | false => rfl
    cases rest with
    | nil => simp [parseRegex, hcdot]
    | cons d rest' =>
      have hd : regexLiteralChar d = true :=
        h d (List.mem_cons_of_mem c (List.mem_cons_self d rest'))
      have hdplus : (d == '+') = false := by
        cases he : d == '+' with
        | true =>
          rw [regexLiteralChar, eq_of_beq he] at hd
          simp at hd
        | false => rfl
      have ih' := ih fun e he => h e (List.mem_cons_of_mem c he)
      simp [parseRegex, hcdot, hdplus, ih']

/-- Matching a pattern of unquantified literal atoms is exactly the literal
prefix test. -/
theorem matchAtoms_lit : ∀ (ps cs : List Char),
    matchAtoms cs (ps.map fun c => (RAtom.lit c, false)) = litStarts ps cs := by
  intro ps
  induction ps with
  | nil => intro cs; cases cs <;> rfl
  | cons p ps ih =>
    intro cs
    cases cs with
    | nil => rfl
    | cons c cs => simp [matchAtoms, litStarts, ratomMatch, ih]

/-- On a pattern made of regex-literal characters the interpolated regex
match is exactly the literal prefix match. -/
theorem regex_eq_lit (ps : List Char) (h : ∀ c ∈ ps, regexLiteralChar c = true)
    (cs : List Char) : matchAtoms cs (parseRegex ps) = litStarts ps cs := by
  rw [parseRegex_lit ps h, matchAtoms_lit]

/-- Path-level form of `regex_eq_lit`: when the base path extended by the
separator consists of regex-literal characters, the interpolated descendant
query agrees with the literal path-prefix test. -/
theorem pathRegexMatch_eq_lit (base cand : String)
    (h : ∀ c ∈ (base ++ "/").data, regexLiteralChar c = true) :
    pathRegexMatch base cand = litPathStarts base cand :=
  regex_eq_lit _ h _

/-- Members of a folder list with no duplicate ids are determined by id. -/
theorem folder_id_inj {l : List Folder} (hnodup : (l.map Folder.id).Nodup)
    {a b : Folder} (ha : a ∈ l) (hb : b ∈ l) (h : a.id = b.id) : a = b :=
  List.inj_on_of_nodup_map hnodup ha hb h

/-- The document answered by `findFolder` is a member satisfying the query. -/
theorem findFolder_spec {db : DB} {fid uid : Nat} {deleted : Bool} {F : Folder}
    (hF : findFolder db fid uid deleted = some F) :
    F ∈ db.folders ∧ F.id = fid ∧ F.owner = uid ∧ F.isDeleted = deleted := by
  have hm := List.mem_of_find?_eq_some hF
  have hp := List.find?_some hF
  simp only [Bool.and_eq_true, beq_iff_eq] at hp
  exact ⟨hm, hp.1.1, hp.1.2, hp.2⟩

/-- State reached by creating root folder "a" (path "/a") and then renaming
it to "b" through `updateFolder` with no parent field in the request. -/
def c1state : Except String DB := do
  let d1 ← createFolder dbEmpty 0 1 "a" none none
  updateFolder d1 0 1 { name := some "b", parent := none, color := none }

/-- Claim C1 (code_bug evidence): after renaming folder "/a" to "b", the
stored path is still "/a" and not "/" + "b" — the folderSchema pre-validate
hook recomputes the path only when the parent field was modified, so a pure
rename leaves the renamed folder's own materialized path stale (and no code
path ever recomputes descendants' paths on rename or move). -/
theorem renameLeavesStalePath :
    c1state.map (fun db => db.folders.map fun g => (g.name, g.path))
      = .ok [("b", "/a")]
    ∧ ("/a" : String).data ≠ ("/" ++ "b" : String).data :=
  ⟨rfl, by decide⟩

/-- State reached by creating root folders "a.b" (path "/a.b") and "axb"
(path "/axb"), a subfolder "s" of "axb" (path "/axb/s"), and then
soft-deleting folder "a.b". -/
def c2state : Except String DB := do
  let d1 ← createFolder dbEmpty 0 1 "a.b" none none
  let d2 ← createFolder d1 0 2 "axb" none none
  let d3 ← createFolder d2 0 3 "s" (some 2) none
  deleteFolder d3 0 1 9

/-- Claim C2 (counterexample): soft-deleting folder "/a.b" also marks folder
"/axb/s" deleted, although "/axb/s" does not have "/a.b" + "/" as a literal
prefix — the descendant query interpolates the path into a regex, where the
"." of the folder name matches any character.  The claimed set is exactly
\x7bfolder 1\x7d yet folder 3 transitions as well (while its parent, folder
2, stays live). -/
theorem softDeleteRegexOvermatch :
    (c2state.map fun db => db.folders.map fun g => (g.id, g.path, g.isDeleted))
      = .ok [(1, "/a.b", true), (2, "/axb", false), (3, "/axb/s", true)]
    ∧ litPathStarts "/a.b" "/axb/s" = false :=
  ⟨rfl, rfl⟩

/-- State reached by creating root folder "a", uploading a 100-byte file with
blob id "pid" into it, soft-deleting the folder, and then permanently
deleting it from trash. -/
def c5state : Except String (DB × List String) := do
  let d1 ← createFolder dbEmpty 0 1 "a" none none
  let d2 := uploadFile d1 0 10 "f" 100 (some 1) "pid"
  let d3 ← deleteFolder d2 0 1 3
  permanentlyDeleteFolder d3 0 1

/-- Claim C5 (code_bug evidence): permanently deleting the trashed folder
removes the folder and file records, but the owner's storageUsed stays at
100 (no quota decrement exists in `permanentlyDeleteFolder`) and no
blob-store delete is issued ("pid" is never passed to `deleteFromCloudinary`,
because `File.deleteMany` does not run the `pre('remove')` document
middleware). -/
theorem permanentDeleteFolderNoBlobNoQuota :
    c5state.map (fun r =>
      (r.1.storageUsed 0, r.2, r.1.files.length, r.1.folders.length))
      = .ok (100, ([] : List String), 0, 0) :=
  rfl

/-- State reached by creating root folder "a", uploading a file into it,
soft-deleting the folder (which cascades to the file), and then restoring
just the file from trash. -/
def c6state : Except String DB := do
  let d1 ← createFolder dbEmpty 0 1 "a" none none
  let d2 := uploadFile d1 0 10 "f" 5 (some 1) "pid"
  let d3 ← deleteFolder d2 0 1 3
  restoreFile d3 0 10

/-- Claim C6 (code_bug evidence): after cascade-deleting folder "/a" with its
file and then restoring only the file, the state reachable through the
system's own operations contains a live file whose containing folder is
still deleted — `restoreFile` never checks the folder's state, violating the
no-orphan invariant. -/
theorem restoreFileCreatesOrphan :
    c6state.map fileOrphanExists = .ok true
    ∧ c6state.map (fun db =>
        (db.files.map fun h => (h.id, h.isDeleted),
         db.folders.map fun g => (g.id, g.isDeleted)))
      = .ok ([(10, false)], [(1, true)]) :=
  ⟨rfl, rfl⟩

/-- State reached by uploading a 100-byte file (storageUsed 100),
soft-deleting it (storageUsed still 100), reconciling the counter
(storageUsed 0, the file being in trash), and then permanently deleting the
file. -/
def c8state : Except String DB := do
  let d1 := uploadFile dbEmpty 0 10 "f" 100 none "pid"
  let d2 ← deleteFile d1 0 10 2
  let d3 := recalculateStorageUsage d2 0
  permanentlyDeleteFile d3 0 10

/-- Claim C8 (counterexample): permanent deletion of the file drives the
owner's stored counter to -100, which is negative — the controller updates
the counter with a plain signed increment and never applies the zero floor
(the floored helper `updateStorageUsed` of the User model is not called
here). -/
theorem permanentDeleteFileNegativeCounter :
    c8state.map (fun db => db.storageUsed 0) = .ok (-100)
    ∧ (-100 : Int) < 0 :=
  ⟨rfl, by decide⟩

/-- Claim C8 (amended): permanently deleting a single trashed file
decrements the owner's storageUsed by exactly the file's size as a signed
value, with no floor at zero. -/
theorem permanentDeleteFileExactDecrement (db : DB) (uid fileId : Nat)
    (file : FileDoc)
    (hfind : db.files.find?
      (fun h => h.id == fileId && h.owner == uid && h.isDeleted) = some file) :
    (runDB (permanentlyDeleteFile db uid fileId) db).storageUsed uid
      = db.storageUsed uid - (file.size : Int) := by
  simp only [runDB, permanentlyDeleteFile, hfind]
  simp

/-- Trashed 7-byte file used to instantiate the amended C8 theorem. -/
def w8file : FileDoc :=
  ⟨10, "f", 0, none, 7, "pid", true, some 1, ⟨false, []⟩⟩

/-- Database holding `w8file` with the owner's counter at 3. -/
def w8db : DB := ⟨[], [w8file], fun _ => 3⟩

/-- Witness: the amended C8 theorem evaluated on a concrete one-file
database, where the counter moves from 3 to 3 - 7. -/
theorem permanentDeleteFileExactDecrementWitness :
    (runDB (permanentlyDeleteFile w8db 0 10) w8db).storageUsed 0
      = w8db.storageUsed 0 - (7 : Int) :=
  permanentDeleteFileExactDecrement w8db 0 10 w8file rfl

/-- Claim C9: recalculateStorageUsage is idempotent — running it twice for an
owner yields the same stored counter, and that counter equals the sum of the
sizes of the owner's non-deleted files. -/
theorem reconcileIdempotentAndExact (db : DB) (uid : Nat) :
    (recalculateStorageUsage (recalculateStorageUsage db uid) uid).storageUsed uid
      = (recalculateStorageUsage db uid).storageUsed uid
    ∧ (recalculateStorageUsage db uid).storageUsed uid
      = ((db.files.filter fun h => h.owner == uid && !h.isDeleted).map
          fun h => (h.size : Int)).sum := by
  constructor <;> simp [recalculateStorageUsage]

/-- Claim C7: permission resolution on a single node (file or folder), with
no ancestor inheritance — owner when the principal is the node's owner,
otherwise the first matching sharedWith entry's permission, otherwise read
when the node is public, otherwise no access. -/
theorem accessResolutionCases (fd : FileDoc) (gd : Folder) (u : Nat) :
    ((fd.owner = u → fd.isAccessibleBy u = ⟨true, some .owner⟩)
     ∧ (∀ e, fd.owner ≠ u →
          fd.shareSettings.sharedWith.find? (fun x => x.user == u) = some e →
          fd.isAccessibleBy u = ⟨true, some e.permission.toLevel⟩)
     ∧ (fd.owner ≠ u →
          fd.shareSettings.sharedWith.find? (fun x => x.user == u) = none →
          fd.shareSettings.isPublic = true →
          fd.isAccessibleBy u = ⟨true, some .read⟩)
     ∧ (fd.owner ≠ u →
          fd.shareSettings.sharedWith.find? (fun x => x.user == u) = none →
          fd.shareSettings.isPublic = false →
          fd.isAccessibleBy u = ⟨false, none⟩))
    ∧ ((gd.owner = u → gd.isAccessibleBy u = ⟨true, some .owner⟩)
     ∧ (∀ e, gd.owner ≠ u →
          gd.shareSettings.sharedWith.find? (fun x => x.user == u) = some e →
          gd.isAccessibleBy u = ⟨true, some e.permission.toLevel⟩)
     ∧ (gd.owner ≠ u →
          gd.shareSettings.sharedWith.find? (fun x => x.user == u) = none →
          gd.shareSettings.isPublic = true →
          gd.isAccessibleBy u = ⟨true, some .read⟩)
     ∧ (gd.owner ≠ u →
          gd.shareSettings.sharedWith.find? (fun x => x.user == u) = none →
          gd.shareSettings.isPublic = false →
          gd.isAccessibleBy u = ⟨false, none⟩)) := by
  refine ⟨⟨?_, ?_, ?_, ?_⟩, ?_, ?_, ?_, ?_⟩
  · intro h; simp [FileDoc.isAccessibleBy, h]
  · intro e hne hfind; simp [FileDoc.isAccessibleBy, beq_iff_eq, hne, hfind]
  · intro hne hfind hpub; simp [FileDoc.isAccessibleBy, beq_iff_eq, hne, hfind, hpub]
  · intro hne hfind hpub; simp [FileDoc.isAccessibleBy, beq_iff_eq, hne, hfind, hpub]
  · intro h; simp [Folder.isAccessibleBy, h]
  · intro e hne hfind; simp [Folder.isAccessibleBy, beq_iff_eq, hne, hfind]
  · intro hne hfind hpub; simp [Folder.isAccessibleBy, beq_iff_eq, hne, hfind, hpub]
  · intro hne hfind hpub; simp [Folder.isAccessibleBy, beq_iff_eq, hne, hfind, hpub]

/-- File owned by user 1, not shared, used to instantiate C7. -/
def c7file : FileDoc := ⟨20, "w", 1, none, 0, "p", false, none, ⟨false, []⟩⟩

/-- Public folder owned by user 1, used to instantiate C7. -/
def c7folder : Folder :=
  ⟨21, "w", 1, none, "/w", "#1976d2", false, none, ⟨true, []⟩⟩

/-- Witness: C7 evaluated concretely — the owner resolves to owner access on
the file, and a stranger resolves to public read on the public folder. -/
theorem accessResolutionCasesWitness :
    c7file.isAccessibleBy 1 = ⟨true, some .owner⟩
    ∧ c7folder.isAccessibleBy 2 = ⟨true, some .read⟩ :=
  ⟨(accessResolutionCases c7file c7folder 1).1.1 rfl,
   (accessResolutionCases c7file c7folder 2).2.2.2.1 (by decide) rfl rfl⟩

/-- Counting helper: applying a share upsert for user `v` does not change the
number of entries held by a different user `u`. -/
theorem countUser_applyShare_ne (u v : Nat) (p : Perm) (t : Nat)
    (huv : v ≠ u) :
    ∀ l, countUser u (applyShare l v p t) = countUser u l := by
  have hvu : (v == u) = false := by
    cases h : v == u with
    | true => exact absurd (eq_of_beq h) huv
    | false => rfl
  intro l
  induction l with
  | nil => simp [applyShare, countUser, hvu]
  | cons e es ih =>
    cases he : e.user == v with
    | true => simp [applyShare, he, countUser]
    | false => simp [applyShare, he, countUser, ih]

/-- Counting helper: a share upsert for user `u` preserves the bound of at
most one entry for `u`. -/
theorem countUser_applyShare_self (u : Nat) (p : Perm) (t : Nat) :
    ∀ l, countUser u l ≤ 1 → countUser u (applyShare l u p t) ≤ 1 := by
  intro l
  induction l with
  | nil => intro _; simp [applyShare, countUser]
  | cons e es ih =>
    intro h
    cases he : e.user == u with
    | true =>
      simp only [applyShare, he, if_true, countUser] at h ⊢
      simpa [he] using h
    | false =>
      simp [applyShare, he, countUser] at h ⊢
      exact ih h

/-- Counting helper: a share upsert preserves the at-most-one bound for
every user. -/
theorem countUser_applyShare_le (l : List ShareEntry) (u v : Nat) (p : Perm)
    (t : Nat) (h : countUser u l ≤ 1) :
    countUser u (applyShare l v p t) ≤ 1 := by
  by_cases hv : v = u
  · subst hv; exact countUser_applyShare_self v p t l h
  · rw [countUser_applyShare_ne u v p t hv l]; exact h

/-- Claim C10: starting from the empty sharedWith list, any sequence of share
operations leaves at most one entry per user, because sharing with a user
who already has an entry rewrites that entry in place (the list keeps its
length) while sharing with a new user appends exactly one entry. -/
theorem sharedWithNoDuplicates :
    (∀ (ops : List (Nat × Perm × Nat)) (u : Nat),
      countUser u (ops.foldl (fun l op => applyShare l op.1 op.2.1 op.2.2) []) ≤ 1)
    ∧ (∀ (l : List ShareEntry) (u : Nat) (p : Perm) (t : Nat),
        (applyShare l u p t).length =
          if l.any (fun e => e.user == u) then l.length else l.length + 1) := by
  constructor
  · have key : ∀ (ops : List (Nat × Perm × Nat)) (l : List ShareEntry),
        (∀ u, countUser u l ≤ 1) →
        ∀ u, countUser u (ops.foldl (fun l op => applyShare l op.1 op.2.1 op.2.2) l) ≤ 1 := by
      intro ops
      induction ops with
      | nil => intro l h u; exact h u
      | cons op ops ih =>
        intro l h u
        exact ih _ (fun w => countUser_applyShare_le l w op.1 op.2.1 op.2.2 (h w)) u
    intro ops u
    exact key ops [] (fun w => by simp [countUser]) u
  · intro l u p t
    induction l with
    | nil => simp [applyShare]
    | cons e es ih =>
      cases he : e.user == u with
      | true => simp [applyShare, he]
      | false =>
        cases ha : es.any (fun x => x.user == u) with
        | true => simp [applyShare, he, List.any_cons, ha, ih]
        | false => simp [applyShare, he, List.any_cons, ha, ih]

/-- Controller results: an error guarded behind a conflict check is still an
error when the unguarded alternative is one. -/
theorem isOk_ite_error {c : Prop} [Decidable c] {e1 : String}
    {x : Except String DB} (hx : x.isOk = false) :
    (if c then Except.error e1 else x).isOk = false := by
  split
  · rfl
  · exact hx

/-- Claim C4 (amended): a move request whose destination is the folder
itself is always answered with an error; a destination whose path literally
extends the folder's path (a descendant) is likewise rejected whenever the
folder's path consists of regex-literal characters; in both cases the
database is left unchanged. -/
theorem moveIntoSelfOrLiteralDescendantRejected (db : DB) (uid fid p : Nat)
    (F : Folder) (req : UpdateReq)
    (hnodup : (db.folders.map Folder.id).Nodup)
    (hF : findFolder db fid uid false = some F)
    (hreq : req.parent = some (some p))
    (hcase : p = F.id ∨ ((∀ c ∈ (F.path ++ "/").data, regexLiteralChar c = true)
        ∧ ∃ d, d ∈ db.folders ∧ d.id = p ∧ d.owner = uid ∧
          litPathStarts F.path d.path = true)) :
    (updateFolder db uid fid req).isOk = false
    ∧ applyUpdateFolder db uid fid req = db := by
  obtain ⟨hFmem, hFid, hFowner, hFdel⟩ := findFolder_spec hF
  have hcyc : ((getDescendants db F.id uid).contains p || p == F.id) = true := by
    rcases hcase with hpF | ⟨hplit, d, hdmem, hdid, hdo, hlit⟩
    · have hb : (p == F.id) = true := by simp [hpF]
      rw [hb, Bool.or_true]
    · have hex : ∃ x ∈ db.folders, (x.id == F.id && x.owner == uid) = true :=
        ⟨F, hFmem, by simp [hFowner]⟩
      have hsome : (db.folders.find? fun f => f.id == F.id && f.owner == uid).isSome :=
        List.find?_isSome.mpr (by simpa using hex)
      obtain ⟨f0, hf0⟩ := Option.isSome_iff_exists.mp hsome
      have hf0mem := List.mem_of_find?_eq_some hf0
      have hf0p := List.find?_some hf0
      simp only [Bool.and_eq_true, beq_iff_eq] at hf0p
      have hf0F : f0 = F := folder_id_inj hnodup hf0mem hFmem hf0p.1
      have hgd : getDescendants db F.id uid =
          (db.folders.filter fun f =>
            pathRegexMatch F.path f.path && f.owner == uid).map Folder.id := by
        unfold getDescendants
        rw [hf0]
        show (db.folders.filter fun f =>
          pathRegexMatch f0.path f.path && f.owner == uid).map Folder.id = _
        rw [hf0F]
      have hpmem : p ∈ getDescendants db F.id uid := by
        rw [hgd]
        refine List.mem_map.mpr ⟨d, List.mem_filter.mpr ⟨hdmem, ?_⟩, hdid⟩
        simp only [Bool.and_eq_true, beq_iff_eq]
        refine ⟨?_, hdo⟩
        rw [pathRegexMatch_eq_lit F.path d.path hplit]
        exact hlit
      have hcont : (getDescendants db F.id uid).contains p = true :=
        List.elem_iff.mpr hpmem
      rw [hcont, Bool.true_or]
  have hmain : (updateFolder db uid fid req).isOk = false := by
    simp only [updateFolder, hF, hreq]
    apply isOk_ite_error
    cases hp : findFolder db p uid false with
    | none => rfl
    | some q =>
      simp only [hcyc]
      rfl
  refine ⟨hmain, ?_⟩
  unfold applyUpdateFolder
  cases hres : updateFolder db uid fid req with
  | ok db' =>
    rw [hres] at hmain
    exact Bool.noConfusion hmain
  | error e => rfl

/-- Root folder "/a" used to instantiate C4. -/
def c4parent : Folder := ⟨1, "a", 0, none, "/a", "#1976d2", false, none, ⟨false, []⟩⟩

/-- Subfolder "/a/b" of `c4parent` used to instantiate C4. -/
def c4child : Folder := ⟨2, "b", 0, some 1, "/a/b", "#1976d2", false, none, ⟨false, []⟩⟩

/-- Two-folder database used to instantiate C4. -/
def c4db : DB := ⟨[c4parent, c4child], [], fun _ => 0⟩

/-- Move request asking to reparent folder 1 under its descendant 2. -/
def c4req : UpdateReq := ⟨none, some (some 2), none⟩

/-- Witness: the amended C4 evaluated concretely — moving "/a" under its own
subfolder "/a/b" is rejected and the two-folder database is unchanged. -/
theorem moveIntoSelfOrLiteralDescendantRejectedWitness :
    (updateFolder c4db 0 1 c4req).isOk = false
    ∧ applyUpdateFolder c4db 0 1 c4req = c4db :=
  moveIntoSelfOrLiteralDescendantRejected c4db 0 1 2 c4parent c4req (by decide)
    rfl rfl (Or.inr ⟨by decide, c4child, by decide, rfl, rfl, rfl⟩)

/-- State reached by creating root folder "a+b" (path "/a+b", the validation
sanitizer keeps the plus sign), creating subfolder "x" under it (path
"/a+b/x"), and then asking to move folder 1 under its descendant folder 2. -/
def c4plusState : Except String DB := do
  let d1 ← createFolder dbEmpty 0 1 "a+b" none none
  let d2 ← createFolder d1 0 2 "x" (some 1) none
  updateFolder d2 0 1 { name := none, parent := some (some 2), color := none }

/-- Claim C4 (counterexample): moving folder "/a+b" under its literal
descendant "/a+b/x" is not rejected — getDescendants interpolates the path
into the regex pattern caret slash a plus b slash, in which the plus sign
quantifies the a, so the pattern does not match "/a+b/x" and the cyclic move
commits: folder 1 ends up with parent 2 while folder 2 keeps parent 1. -/
theorem movePlusIntoDescendantCommits :
    (c4plusState.map fun db => db.folders.map fun g => (g.id, g.parent, g.path))
      = .ok [(1, some 2, "/a+b/x/a+b"), (2, some 1, "/a+b/x")]
    ∧ litPathStarts "/a+b" "/a+b/x" = true :=
  ⟨rfl, rfl⟩

/-- Bridging lemma between `List.contains` and membership for id lists. -/
theorem contains_iff_mem {l : List Nat} {a : Nat} :
    l.contains a = true ↔ a ∈ l :=
  List.elem_iff

/-- Characterization of membership in the cascade id list built by the trash
operations, for a base path of regex-literal characters: an id is collected
exactly when it is the root folder's id or the id of a same-owner folder
whose path literally extends the root's path. -/
theorem cascade_ids_contains (db : DB) (uid : Nat) (F : Folder) (x : Nat)
    (hlit : ∀ c ∈ (F.path ++ "/").data, regexLiteralChar c = true) :
    (F.id :: (db.folders.filter fun f =>
        pathRegexMatch F.path f.path && f.owner == uid).map Folder.id).contains x
    = (x == F.id || db.folders.any fun g =>
        g.id == x && g.owner == uid && litPathStarts F.path g.path) := by
  apply Bool.eq_iff_iff.mpr
  simp only [contains_iff_mem, List.mem_cons, List.mem_map, List.mem_filter,
    List.any_eq_true, Bool.and_eq_true, Bool.or_eq_true, beq_iff_eq,
    pathRegexMatch, litPathStarts, regex_eq_lit _ hlit]
  constructor
  · rintro (h | ⟨a, ⟨ham, hal, hao⟩, haid⟩)
    · exact Or.inl h
    · exact Or.inr ⟨a, ham, ⟨haid, hao⟩, hal⟩
  · rintro (h | ⟨g, hgm, ⟨hgx, hgo⟩, hgl⟩)
    · exact Or.inl h
    · exact Or.inr ⟨g, ⟨hgm, hgl, hgo⟩, hgx⟩

/-- Per-folder condition equivalence for the soft-delete cascade on a base
path of regex-literal characters: the update touches a folder document
exactly when it is the root or a same-owner literal descendant. -/
theorem cascade_folder_cond (db : DB) (uid : Nat) (F g : Folder)
    (hnodup : (db.folders.map Folder.id).Nodup)
    (hFmem : F ∈ db.folders) (hFowner : F.owner = uid)
    (hlit : ∀ c ∈ (F.path ++ "/").data, regexLiteralChar c = true)
    (hg : g ∈ db.folders) :
    ((F.id :: (db.folders.filter fun f =>
        pathRegexMatch F.path f.path && f.owner == uid).map Folder.id).contains g.id
      && g.owner == uid)
    = (g.id == F.id || (g.owner == uid && litPathStarts F.path g.path)) := by
  rw [cascade_ids_contains db uid F g.id hlit]
  apply Bool.eq_iff_iff.mpr
  simp only [List.any_eq_true, Bool.and_eq_true, Bool.or_eq_true, beq_iff_eq]
  constructor
  · rintro ⟨h | ⟨d, hdm, ⟨hdid, hdo⟩, hdl⟩, ho⟩
    · exact Or.inl h
    · have hdg : d = g := folder_id_inj hnodup hdm hg hdid
      exact Or.inr ⟨ho, hdg ▸ hdl⟩
  · rintro (h | ⟨ho, hl⟩)
    · have hgF : g = F := folder_id_inj hnodup hg hFmem h
      exact ⟨Or.inl h, by rw [hgF]; exact hFowner⟩
    · exact ⟨Or.inr ⟨g, hg, ⟨rfl, ho⟩, hl⟩, ho⟩

/-- Claim C2 (amended): when every character of the trashed root's path is a
plain regex literal (in particular no '.' and no '+'), soft-deleting folder
F marks exactly F, the same-owner folders whose paths literally extend
F.path + "/", and the same-owner files stored in those folders, as deleted
at the given instant, and leaves every other document (and the storage
counters) unchanged. -/
theorem softDeleteCascadeExactLiteral (db : DB) (uid fid now : Nat) (F : Folder)
    (hnodup : (db.folders.map Folder.id).Nodup)
    (hF : findFolder db fid uid false = some F)
    (hlit : ∀ c ∈ (F.path ++ "/").data, regexLiteralChar c = true) :
    deleteFolder db uid fid now = .ok { db with
      folders := db.folders.map fun g =>
        if g.id == F.id || (g.owner == uid && litPathStarts F.path g.path) then
          { g with isDeleted := true, deletedAt := some now } else g,
      files := db.files.map fun h =>
        if (h.folder.any fun x => x == F.id || db.folders.any fun g =>
              g.id == x && g.owner == uid && litPathStarts F.path g.path)
            && h.owner == uid then
          { h with isDeleted := true, deletedAt := some now } else h } := by
  obtain ⟨hFmem, hFid, hFowner, hFdel⟩ := findFolder_spec hF
  simp only [deleteFolder, hF]
  refine congrArg Except.ok ?_
  congr 1
  · exact List.map_congr_left fun g hg => by
      rw [cascade_folder_cond db uid F g hnodup hFmem hFowner hlit hg]
  · exact List.map_congr_left fun h _ => by
      have : ∀ x : Nat,
          (F.id :: (db.folders.filter fun f =>
            pathRegexMatch F.path f.path && f.owner == uid).map Folder.id).contains x
          = (x == F.id || db.folders.any fun g =>
              g.id == x && g.owner == uid && litPathStarts F.path g.path) :=
        fun x => cascade_ids_contains db uid F x hlit
      simp only [this]

/-- Live root folder "/a" used to instantiate the amended C2. -/
def c2wF : Folder := ⟨1, "a", 0, none, "/a", "#1976d2", false, none, ⟨false, []⟩⟩

/-- Live subfolder "/a/b" used to instantiate the amended C2. -/
def c2wChild : Folder := ⟨2, "b", 0, some 1, "/a/b", "#1976d2", false, none, ⟨false, []⟩⟩

/-- Live file stored in folder 2, used to instantiate the amended C2. -/
def c2wFile : FileDoc := ⟨10, "f", 0, some 2, 4, "pid", false, none, ⟨false, []⟩⟩

/-- Concrete two-folder, one-file database used to instantiate the amended C2.-/
def c2wdb : DB := ⟨[c2wF, c2wChild], [c2wFile], fun _ => 0⟩

/-- Witness: the amended C2 theorem evaluated on the concrete database with
the all-literal root path "/a". -/
theorem softDeleteCascadeExactLiteralWitness :
    deleteFolder c2wdb 0 1 5 = .ok { c2wdb with
      folders := c2wdb.folders.map fun g =>
        if g.id == c2wF.id || (g.owner == 0 && litPathStarts c2wF.path g.path) then
          { g with isDeleted := true, deletedAt := some 5 } else g,
      files := c2wdb.files.map fun h =>
        if (h.folder.any fun x => x == c2wF.id || c2wdb.folders.any fun g =>
              g.id == x && g.owner == 0 && litPathStarts c2wF.path g.path)
            && h.owner == 0 then
          { h with isDeleted := true, deletedAt := some 5 } else h } :=
  softDeleteCascadeExactLiteral c2wdb 0 1 5 c2wF (by decide) rfl (by decide)

/-- Claim C3 (amended): when every character of the trashed folder's path is
a plain regex literal, restoring it succeeds and clears the deletion mark on
F, on every same-owner soft-deleted folder whose path literally extends
F.path + "/" (including ones that were soft-deleted independently before F
was), and on every file of the owner stored in one of those folders. -/
theorem restoreFolderCascadeCoversLiteral (db : DB) (uid fid : Nat) (F : Folder)
    (hnodup : (db.folders.map Folder.id).Nodup)
    (hF : findFolder db fid uid true = some F)
    (hplit : ∀ c ∈ (F.path ++ "/").data, regexLiteralChar c = true) :
    (restoreFolder db uid fid).isOk = true
    ∧ (∀ (i : Nat) (g : Folder), db.folders[i]? = some g →
        (g.id = F.id ∨ (g.owner = uid ∧ g.isDeleted = true ∧
          litPathStarts F.path g.path = true)) →
        (runDB (restoreFolder db uid fid) db).folders[i]? =
          some { g with isDeleted := false, deletedAt := none })
    ∧ (∀ (j : Nat) (h : FileDoc) (x : Nat), db.files[j]? = some h →
        h.owner = uid → h.folder = some x →
        (x = F.id ∨ ∃ g, g ∈ db.folders ∧ g.id = x ∧ g.owner = uid ∧
          g.isDeleted = true ∧ litPathStarts F.path g.path = true) →
        (runDB (restoreFolder db uid fid) db).files[j]? =
          some { h with isDeleted := false, deletedAt := none }) := by
  obtain ⟨hFmem, hFid, hFowner, hFdel⟩ := findFolder_spec hF
  refine ⟨?_, ?_, ?_⟩
  · simp only [restoreFolder, hF]
    rfl
  · intro i g hget hcond
    have hg : g ∈ db.folders := List.getElem?_mem hget
    have hcontains : ((F.id :: (db.folders.filter fun f =>
        pathRegexMatch F.path f.path && f.owner == uid && f.isDeleted).map
          Folder.id).contains g.id && g.owner == uid) = true := by
      rcases hcond with h | ⟨ho, hdel, hl⟩
      · have hgF : g = F := folder_id_inj hnodup hg hFmem h
        simp [contains_iff_mem, h, hgF, hFowner]
      · have hmem : g ∈ db.folders.filter fun f =>
            pathRegexMatch F.path f.path && f.owner == uid && f.isDeleted := by
          refine List.mem_filter.mpr ⟨hg, ?_⟩
          simp only [Bool.and_eq_true, beq_iff_eq]
          refine ⟨⟨?_, ho⟩, hdel⟩
          rw [pathRegexMatch_eq_lit F.path g.path hplit]
          exact hl
        have hidmem : g.id ∈ (db.folders.filter fun f =>
            pathRegexMatch F.path f.path && f.owner == uid && f.isDeleted).map
              Folder.id := List.mem_map.mpr ⟨g, hmem, rfl⟩
        simp [contains_iff_mem, List.mem_cons, ho, hidmem]
    simp only [runDB, restoreFolder, hF, List.getElem?_map, hget,
      Option.map_some']
    rw [hcontains]
    rfl
  · intro j h x hget ho hfold hcond
    have hx : ((F.id :: (db.folders.filter fun f =>
        pathRegexMatch F.path f.path && f.owner == uid && f.isDeleted).map
          Folder.id).contains x) = true := by
      rcases hcond with h1 | ⟨g, hgm, hgx, hgo, hgdel, hgl⟩
      · simp [contains_iff_mem, h1]
      · have hmem : g ∈ db.folders.filter fun f =>
            pathRegexMatch F.path f.path && f.owner == uid && f.isDeleted := by
          refine List.mem_filter.mpr ⟨hgm, ?_⟩
          simp only [Bool.and_eq_true, beq_iff_eq]
          refine ⟨⟨?_, hgo⟩, hgdel⟩
          rw [pathRegexMatch_eq_lit F.path g.path hplit]
          exact hgl
        have hidmem : x ∈ (db.folders.filter fun f =>
            pathRegexMatch F.path f.path && f.owner == uid && f.isDeleted).map
              Folder.id := List.mem_map.mpr ⟨g, hmem, hgx⟩
        simp [contains_iff_mem, List.mem_cons, hidmem]
    have hfull : ((h.folder.any fun x' =>
        (F.id :: (db.folders.filter fun f =>
          pathRegexMatch F.path f.path && f.owner == uid && f.isDeleted).map
            Folder.id).contains x') && h.owner == uid) = true := by
      rw [hfold]
      simp only [Option.any_some]
      rw [hx, Bool.true_and]
      simp [ho]
    simp only [runDB, restoreFolder, hF, List.getElem?_map, hget,
      Option.map_some']
    rw [hfull]
    simp [ho, hfold]

/-- Trashed root folder "/a" used to instantiate C3. -/
def c3F : Folder := ⟨1, "a", 0, none, "/a", "#1976d2", true, some 5, ⟨false, []⟩⟩

/-- Trashed subfolder "/a/b" used to instantiate C3. -/
def c3child : Folder := ⟨2, "b", 0, some 1, "/a/b", "#1976d2", true, some 5, ⟨false, []⟩⟩

/-- Trashed file stored in folder 2, used to instantiate C3. -/
def c3file : FileDoc := ⟨10, "f", 0, some 2, 4, "pid", true, some 5, ⟨false, []⟩⟩

/-- Concrete trashed database used to instantiate C3. -/
def c3db : DB := ⟨[c3F, c3child], [c3file], fun _ => 0⟩

/-- Witness: the amended C3 evaluated concretely — restoring folder 1 (path
"/a", all literal characters) clears the deletion mark on descendant folder
2 and on the file stored inside it. -/
theorem restoreFolderCascadeCoversLiteralWitness :
    (runDB (restoreFolder c3db 0 1) c3db).folders[1]? =
      some { c3child with isDeleted := false, deletedAt := none }
    ∧ (runDB (restoreFolder c3db 0 1) c3db).files[0]? =
      some { c3file with isDeleted := false, deletedAt := none } :=
  ⟨(restoreFolderCascadeCoversLiteral c3db 0 1 c3F (by decide) rfl
      (by decide)).2.1 1 c3child rfl (Or.inr ⟨rfl, rfl, rfl⟩),
   (restoreFolderCascadeCoversLiteral c3db 0 1 c3F (by decide) rfl
      (by decide)).2.2 0 c3file 2 rfl rfl rfl
      (Or.inr ⟨c3child, by decide, rfl, rfl, rfl, rfl⟩)⟩

/-- State reached by creating folder "a+b" (path "/a+b"), creating subfolder
"x" under it (path "/a+b/x"), soft-deleting the child on its own, then
soft-deleting the parent, and finally restoring the parent from trash. -/
def c3plusState : Except String DB := do
  let d1 ← createFolder dbEmpty 0 1 "a+b" none none
  let d2 ← createFolder d1 0 2 "x" (some 1) none
  let d3 ← deleteFolder d2 0 2 3
  let d4 ← deleteFolder d3 0 1 4
  restoreFolder d4 0 1

/-- Claim C3 (counterexample): restoring folder "/a+b" leaves its
soft-deleted literal descendant "/a+b/x" in the trash — the restore query
interpolates the path into the regex pattern caret slash a plus b slash,
in which the plus sign quantifies the a, so the pattern does not match the
descendant and the claimed unconditional coverage fails. -/
theorem restorePlusPathMissesChild :
    (c3plusState.map fun db => db.folders.map fun g => (g.id, g.path, g.isDeleted))
      = .ok [(1, "/a+b", false), (2, "/a+b/x", true)]
    ∧ litPathStarts "/a+b" "/a+b/x" = true :=
  ⟨rfl, rfl⟩
